import Mathlib

/-!
Verification of the cache-status and prestage orchestration engine of
`output_cache_list.py` (FNAL dcache helper script).

The Python source is shallowly embedded: pure string manipulation becomes
Lean functions on `String`/`List Char`; the network (pycurl) and the
filesystem are abstracted as oracle functions passed in as parameters;
Python exceptions become `Except PyError`; Python `int` division on the
progress percentages is modelled with exact natural-number division (the
modelled claims only inspect points where the floating-point computation
in the source is exact, such as `n == total`, where `n / total * 100`
is exactly `100.0`).
-/

namespace OutputCacheList

/-- Decidable equality for `Except`, so concrete runs of the embedded
fallible functions can be checked with `decide`. -/
instance {ε α : Type} [DecidableEq ε] [DecidableEq α] :
    DecidableEq (Except ε α) := fun x y =>
  match x, y with
  | .ok a, .ok b => decidable_of_iff (a = b) (by simp)
  | .error a, .error b => decidable_of_iff (a = b) (by simp)
  | .ok _, .error _ => isFalse (fun h => Except.noConfusion h)
  | .error _, .ok _ => isFalse (fun h => Except.noConfusion h)

/-- Python `str.startswith`, on the underlying character lists. -/
def pyStartsWith (s pre : String) : Bool := pre.data.isPrefixOf s.data

/-- Substring containment on character lists: does `pat` occur contiguously
inside `l`? -/
def listContains (pat : List Char) : List Char → Bool
  | [] => pat.isEmpty
  | c :: rest => pat.isPrefixOf (c :: rest) || listContains pat rest

/-- Python `needle in hay` on strings: substring containment. -/
def pyIn (needle hay : String) : Bool := listContains needle.data hay.data

/-- Fuel-driven worker for Python `str.replace` (replace all non-overlapping
occurrences, scanning left to right).  The fuel is always instantiated with
the length of the scanned list, which suffices because every step consumes
at least one character. -/
def replaceAllFuel : Nat → List Char → List Char → List Char → List Char
  | 0, s, _, _ => s
  | _ + 1, [], _, _ => []
  | fuel + 1, c :: rest, pat, rep =>
    if pat.isPrefixOf (c :: rest) && !pat.isEmpty then
      rep ++ replaceAllFuel fuel ((c :: rest).drop pat.length) pat rep
    else
      c :: replaceAllFuel fuel rest pat rep

/-- Python `str.replace` on character lists (for a non-empty pattern, the
only way the source calls it). -/
def replaceAll (s pat rep : List Char) : List Char :=
  replaceAllFuel s.length s pat rep

/-- Python `str.replace` on strings. -/
def pyReplace (s old new : String) : String := ⟨replaceAll s.data old.data new.data⟩

/-- `filename_to_namespace` from the source: maps a raw file reference to
the dcache-native namespace path.  Note that Python `str.replace` replaces
every occurrence, not only the leading one; this is embedded faithfully. -/
def filename_to_namespace (filename : String) : String :=
  if pyStartsWith filename "root://fndca1.fnal.gov:1094" then
    pyReplace filename "root://fndca1.fnal.gov:1094" ""
  else if pyStartsWith filename "/pnfs/uboone" then
    pyReplace filename "/pnfs/uboone" "/pnfs/fnal.gov/usr/uboone"
  else if pyStartsWith filename "enstore:/pnfs/uboone" then
    pyReplace filename "enstore:/pnfs/uboone" "/pnfs/fnal.gov/usr/uboone"
  else filename

/-- Python exceptions that the embedded code can raise. -/
inductive PyError where
  | pycurlError
  | jsonDecodeError
  | ioError
  | typeError
  | zeroDivisionError
  | attributeError
  deriving DecidableEq

/-- Result of performing a curl request against the REST backend for one
(normalized) path: either the transport layer fails (`c.perform()` raises
`pycurl.error`: TLS handshake, DNS, connect failure, ...), or a response
body arrives; the body either parses as a JSON object (modelled as an
association list of the string-valued fields the program reads) or it does
not (`json.loads` raises).  HTTP error statuses are not transport errors:
curl hands their bodies back like any other response. -/
inductive CurlResult where
  | transportError
  | body (parsed : Option (List (String × String)))
  deriving DecidableEq

/-- Field access `j[k] if k in j` on the modelled JSON object. -/
def jsonLookup (j : List (String × String)) (k : String) : Option String :=
  (j.find? (fun p => p.1 == k)).map Prod.snd

/-- `get_file_qos` from the source.  The REST backend is abstracted as a
function `bk` from the normalized path to the curl outcome.  The source
performs the request, decodes, calls `json.loads` (raising on non-JSON),
and then reads the optional `fileLocality` and `targetQos` fields,
defaulting each to the empty string. -/
def get_file_qos (bk : String → CurlResult) (filename : String) :
    Except PyError (String × String) :=
  match bk (filename_to_namespace filename) with
  | .transportError => .error .pycurlError
  | .body none => .error .jsonDecodeError
  | .body (some j) =>
      .ok ((jsonLookup j "fileLocality").getD "", (jsonLookup j "targetQos").getD "")

/-- `is_file_online` from the source. -/
def is_file_online (bk : String → CurlResult) (filename : String) :
    Except PyError Bool := do
  let qt ← get_file_qos bk filename
  pure (pyIn "ONLINE" qt.1)

/-- `request_prestage` from the source: POST the prestage payload, parse the
JSON response (raising on transport failure or non-JSON body), and report
success iff the response object has a `status` field equal to `success`. -/
def request_prestage (bk : String → CurlResult) (filename : String) :
    Except PyError Bool :=
  match bk (filename_to_namespace filename) with
  | .transportError => .error .pycurlError
  | .body none => .error .jsonDecodeError
  | .body (some j) => .ok (decide (jsonLookup j "status" = some "success"))

/-- `is_file_online_pnfs` from the source.  The filesystem side channel is
abstracted as a function `fs` from the file path to the first line of the
magic `.(get)(name)(locality)` pseudo-file, or `none` when opening it
raises (missing pseudo-file, unreadable directory). -/
def is_file_online_pnfs (fs : String → Option String) (f : String) :
    Except PyError Bool :=
  match fs f with
  | none => .error .ioError
  | some state => .ok (pyIn "ONLINE" state)

/-- A progress announcement printed by the progress bar (a percentage). -/
inductive Output where
  | percent (p : Nat)
  deriving DecidableEq

/-- The mutable state of the `ProgressBar` class. -/
structure ProgressBar where
  total : Nat
  totalDiv10 : Nat
  announce : Bool
  lastAnnounceDecile : Int
  deriving DecidableEq

/-- `ProgressBar.Update` from the source.  Returns the new state and the
announcements printed.  When `total > 10` the current decile is computed
(raising `ZeroDivisionError` if the stored `total // 10` were zero, which
cannot happen for a constructed bar); otherwise the decile is `None`, and
if announcements are on the subsequent comparison of `None` with an
integer raises (modelled as the Python 3 `TypeError`; with the default
announce threshold of 50 this branch is unreachable, because announcing
implies `total >= 50 > 10`). -/
def ProgressBar.Update (pb : ProgressBar) (n : Nat) :
    Except PyError (ProgressBar × List Output) :=
  if 10 < pb.total then
    if pb.totalDiv10 = 0 then .error .zeroDivisionError
    else
      let d : Nat := n / pb.totalDiv10
      if pb.announce then
        if ((d : Int) > pb.lastAnnounceDecile ∨ n = pb.total) then
          .ok ({ pb with lastAnnounceDecile := (d : Int) },
               [Output.percent (n * 100 / pb.total)])
        else .ok (pb, [])
      else .ok (pb, [])
  else
    if pb.announce then .error .typeError
    else .ok (pb, [])

/-- The field assignments performed by `ProgressBar.__init__` before it
calls `self.Update(0)`. -/
def ProgressBar.mk0 (total announce_threshold : Nat) : ProgressBar :=
  { total := total
    totalDiv10 := total / 10
    announce := decide (announce_threshold ≤ total)
    lastAnnounceDecile := -1 }

/-- `ProgressBar.__init__` from the source: set the fields, then run
`Update(0)` (which may already announce). -/
def ProgressBar.init (total announce_threshold : Nat) :
    Except PyError (ProgressBar × List Output) :=
  (ProgressBar.mk0 total announce_threshold).Update 0

/-- Run a sequence of `Update` calls, accumulating the announcements. -/
def ProgressBar.runUpdates (pb : ProgressBar) (ns : List Nat) :
    Except PyError (ProgressBar × List Output) :=
  ns.foldlM (fun acc n => do
      let r ← acc.1.Update n
      pure (r.1, acc.2 ++ r.2)) (pb, [])

/-- Construct a progress bar with the given total and threshold and feed it
the given sequence of `Update` calls; return every announcement made,
including the one from the constructor. -/
def progressRun (total threshold : Nat) (ns : List Nat) :
    Except PyError (List Output) := do
  let r0 ← ProgressBar.init total threshold
  let r ← r0.1.runUpdates ns
  pure (r0.2 ++ r.2)

/-- The lookup method selected by the `-m` command line flag. -/
inductive Method where
  | rest
  | pnfs
  deriving DecidableEq

/-- The loop state of `FilelistCacheCount`. -/
structure CacheState where
  cached : Nat
  cache_list : List String
  pending : Nat
  n : Nat
  progbar : Option ProgressBar
  outputs : List Output
  deriving DecidableEq

/-- The tuple returned by `FilelistCacheCount`.  `pending` is an integer
because the pnfs method overwrites it with the sentinel `-1`. -/
structure CacheCountResult where
  cached : Nat
  pending : Int
  n : Nat
  cache_list : List String
  deriving DecidableEq

/-- The `if <cached>: cached += 1; cache_list.append(f)` update of the
status loop. -/
def applyCached (st : CacheState) (f : String) (c : Bool) : CacheState :=
  if c then { st with cached := st.cached + 1, cache_list := st.cache_list ++ [f] }
  else st

/-- The `if "disk" in targetQos: pending += 1` update of the status loop. -/
def applyPending (st : CacheState) (p : Bool) : CacheState :=
  if p then { st with pending := st.pending + 1 } else st

/-- One iteration of the `for f in files` loop of `FilelistCacheCount`:
classify the file by the selected method (any exception propagates), bump
`n`, and when not verbose drive the progress bar (`progbar` being `None`
there would be Python's `AttributeError`; it is unreachable from
`FilelistCacheCount`). -/
def cacheStep (bk : String → CurlResult) (fs : String → Option String)
    (verbose_flag : Bool) (METHOD : Method) (st : CacheState) (f : String) :
    Except PyError CacheState :=
  let classified : Except PyError CacheState :=
    match METHOD with
    | Method.rest =>
        match get_file_qos bk f with
        | .error e => .error e
        | .ok qt => .ok (applyPending (applyCached st f (pyIn "ONLINE" qt.1))
            (pyIn "disk" qt.2))
    | Method.pnfs =>
        match is_file_online_pnfs fs f with
        | .error e => .error e
        | .ok this_cached => .ok (applyCached st f this_cached)
  match classified with
  | .error e => .error e
  | .ok st1 =>
      let st2 := { st1 with n := st1.n + 1 }
      if verbose_flag then .ok st2
      else
        match st2.progbar with
        | none => .error .attributeError
        | some pb =>
            match pb.Update st2.n with
            | .error e => .error e
            | .ok r => .ok { st2 with progbar := some r.1, outputs := st2.outputs ++ r.2 }

/-- The `progbar = None if verbose_flag else ProgressBar(len(files))` line
of `FilelistCacheCount` (the constructor may announce). -/
def initProgress (files_len : Nat) (verbose_flag : Bool) :
    Except PyError (Option ProgressBar × List Output) :=
  if verbose_flag then .ok (none, [])
  else Except.bind (ProgressBar.init files_len 50) (fun r => .ok (some r.1, r.2))

/-- The trailing `if not verbose_flag: progbar.Update(progbar.total)` of
`FilelistCacheCount`. -/
def finishProgress (verbose_flag : Bool) (st : CacheState) :
    Except PyError CacheState :=
  if verbose_flag then .ok st
  else
    match st.progbar with
    | none => .error .attributeError
    | some pb =>
        Except.bind (pb.Update pb.total) (fun r =>
          .ok { st with progbar := some r.1, outputs := st.outputs ++ r.2 })

/-- The return statement of `FilelistCacheCount`: the pending count is
overwritten with the sentinel `-1` for the pnfs method. -/
def finalizeCount (METHOD : Method) (st : CacheState) :
    CacheCountResult × List Output :=
  ({ cached := st.cached
     pending := if METHOD = Method.pnfs then -1 else (st.pending : Int)
     n := st.n
     cache_list := st.cache_list }, st.outputs)

/-- `FilelistCacheCount` from the source: run the per-file residency loop,
driving the progress bar when not verbose (the bar is also updated once
more with `progbar.total` after the loop), and overwrite the pending count
with the sentinel `-1` for the pnfs method.  The `Checking N files` banner
and the verbose per-file lines are plain prints and are not modelled; the
modelled outputs are the progress announcements. -/
def FilelistCacheCount (bk : String → CurlResult) (fs : String → Option String)
    (files : List String) (verbose_flag : Bool) (METHOD : Method) :
    Except PyError (CacheCountResult × List Output) :=
  Except.bind (initProgress files.length verbose_flag) (fun init =>
    Except.bind (files.foldlM (cacheStep bk fs verbose_flag METHOD)
        { cached := 0, cache_list := [], pending := 0, n := 0
          progbar := init.1, outputs := init.2 }) (fun st =>
      Except.bind (finishProgress verbose_flag st) (fun st2 =>
        .ok (finalizeCount METHOD st2))))

/-- `FilelistPrestageRequest` from the source: request a prestage for every
file, counting successes; the verbose flag only controls printing. -/
def FilelistPrestageRequest (bk : String → CurlResult)
    (files : List String) (verbose_flag : Bool) :
    Except PyError (Nat × Nat) :=
  Except.bind (files.foldlM (fun (acc : Nat) (f : String) =>
      (match request_prestage bk f with
      | .error e => .error e
      | .ok success => .ok (if success then acc + 1 else acc) : Except PyError Nat)) 0)
    (fun n_request_succeeded => .ok (n_request_succeeded, files.length))

/-- Group 1 of `ENSTORE_PATTERN` (`^enstore:([^(]+)(\([^)]+\))?`) under
`re.match`: the input must start with `enstore:`, and group 1 is the
maximal non-empty run of characters other than `(` that follows; the
optional parenthesised tape-volume suffix is never captured into group 1
and no end anchor is present. -/
def enstore_group1 (l : List Char) : Option (List Char) :=
  if "enstore:".data.isPrefixOf l then
    let g1 := (l.drop 8).takeWhile (fun c => c != '(')
    if g1 = [] then none else some g1
  else none

/-- Python `os.path.join` for two components (posix semantics). -/
def os_path_join (a b : String) : String :=
  if pyStartsWith b "/" then b
  else if a.data = [] ∨ a.data.getLast? = some '/' then ⟨a.data ++ b.data⟩
  else ⟨a.data ++ '/' :: b.data⟩

/-- Elements of `l` at indices `0, k, 2k, ...` (the positive-step part of a
Python extended slice). -/
def everyKth (l : List α) (k : Nat) : List α :=
  (l.enum.filter (fun p => p.1 % k == 0)).map Prod.snd

/-- Python extended slice `l[::k]`: step 0 raises `ValueError` (`none`),
a positive step takes every `k`-th element from the front, a negative step
takes every `|k|`-th element from the back. -/
def pySliceStep (l : List α) (k : Int) : Option (List α) :=
  if k = 0 then none
  else if 0 < k then some (everyKth l k.toNat)
  else some (everyKth l.reverse (-k).toNat)

/-- `enstore_locations_to_paths` from the source: sparsify the
`(location, filename)` list, and for each entry whose location matches the
enstore pattern join the extracted directory with the filename; an entry
that does not match prints a diagnostic and is silently skipped. -/
def enstore_locations_to_paths (samlist : List (String × String))
    (sparsification : Int) : Option (List String) :=
  (pySliceStep samlist sparsification).map (fun sliced =>
    sliced.foldl (fun acc f =>
      match enstore_group1 f.1.data with
      | some directory => acc ++ [os_path_join ⟨directory⟩ f.2]
      | none => acc) [])

/-- The status-mode exit computation of `__main__`: `miss_count` is
`total - cache_count` (Python integer subtraction) and the process exits
with 0 iff `miss_count == 0`. -/
def status_exit_code (cache_count total : Nat) : Nat :=
  if (total : Int) - (cache_count : Int) = 0 then 0 else 1

/-- The prestage-mode exit computation of `__main__`:
`sys.exit(0 if ngood == n else 1)`. -/
def prestage_exit_code (ngood n : Nat) : Nat :=
  if ngood = n then 0 else 1

/-- The REST response the batch sees for file `f` (the query is always made
against the normalized path). -/
def restResponse (bk : String → CurlResult) (f : String) : CurlResult :=
  bk (filename_to_namespace f)

/-- The `fileLocality` string the REST variant reports for `f` (empty when
the field is missing; only meaningful when the response parses). -/
def restLocality (bk : String → CurlResult) (f : String) : String :=
  match restResponse bk f with
  | .body (some j) => (jsonLookup j "fileLocality").getD ""
  | _ => ""

/-- The `targetQos` string the REST variant reports for `f`. -/
def restTargetQos (bk : String → CurlResult) (f : String) : String :=
  match restResponse bk f with
  | .body (some j) => (jsonLookup j "targetQos").getD ""
  | _ => ""

/-- The cached classification the status loop applies to `f` in REST mode:
the reported locality contains `ONLINE` as a substring. -/
def restCached (bk : String → CurlResult) (f : String) : Bool :=
  pyIn "ONLINE" (restLocality bk f)

/-- The pending classification the status loop applies to `f` in REST mode:
the reported target QoS contains `disk` as a substring. -/
def restPending (bk : String → CurlResult) (f : String) : Bool :=
  pyIn "disk" (restTargetQos bk f)

/-- Whether the prestage request for `f` is reported successful. -/
def prestageSuccess (bk : String → CurlResult) (f : String) : Bool :=
  match restResponse bk f with
  | .body (some j) => decide (jsonLookup j "status" = some "success")
  | _ => false

/-- The cached classification the status loop applies to `f` in pnfs mode. -/
def pnfsCached (fs : String → Option String) (f : String) : Bool :=
  match fs f with
  | some state => pyIn "ONLINE" state
  | none => false

/-! ### List and string helper lemmas -/

lemma isPrefixOf_cons_cons (a b : Char) (t w : List Char) :
    (a :: t).isPrefixOf (b :: w) = (a == b && t.isPrefixOf w) := rfl

lemma isPrefixOf_append_self : ∀ (t z : List Char), t.isPrefixOf (t ++ z) = true := by
  intro t z
  induction t with
  | nil => exact List.isPrefixOf_nil_left
  | cons a t ih => rw [List.cons_append, isPrefixOf_cons_cons]; simp [ih]

/-- If `t` is a prefix of `r ++ z`, then either `t` is a prefix of `r` or
`r` is a prefix of `t`. -/
lemma isPrefixOf_append_elim : ∀ (t r z : List Char),
    t.isPrefixOf (r ++ z) = true →
    t.isPrefixOf r = true ∨ r.isPrefixOf t = true := by
  intro t
  induction t with
  | nil => intro r z _; left; exact List.isPrefixOf_nil_left
  | cons a t ih =>
      intro r z h
      cases r with
      | nil => right; rfl
      | cons b r' =>
          rw [List.cons_append, isPrefixOf_cons_cons, Bool.and_eq_true] at h
          obtain ⟨hab, h⟩ := h
          have hab' : a = b := eq_of_beq hab
          subst hab'
          rcases ih r' z h with hl | hr
          · left; rw [isPrefixOf_cons_cons]; simp [hl]
          · right; rw [isPrefixOf_cons_cons]; simp [hr]

lemma replaceAllFuel_congr (pat rep : List Char) :
    ∀ (f1 : Nat) (s : List Char) (f2 : Nat), s.length ≤ f1 → s.length ≤ f2 →
      replaceAllFuel f1 s pat rep = replaceAllFuel f2 s pat rep := by
  intro f1
  induction f1 with
  | zero =>
      intro s f2 h1 _
      have hs : s = [] := List.length_eq_zero.mp (Nat.le_zero.mp h1)
      subst hs
      cases f2 <;> rfl
  | succ g ih =>
      intro s f2 h1 h2
      cases s with
      | nil => cases f2 <;> rfl
      | cons c rest =>
          cases f2 with
          | zero => simp at h2
          | succ g2 =>
              simp only [replaceAllFuel]
              by_cases hc : (pat.isPrefixOf (c :: rest) && !pat.isEmpty) = true
              · rw [if_pos hc, if_pos hc]
                congr 1
                have hplen : 1 ≤ pat.length := by
                  cases pat with
                  | nil => simp at hc
                  | cons _ _ => simp
                apply ih
                · simp only [List.length_drop, List.length_cons] at *
                  omega
                · simp only [List.length_drop, List.length_cons] at *
                  omega
              · rw [if_neg hc, if_neg hc]
                congr 1
                apply ih
                · simp only [List.length_cons] at h1; omega
                · simp only [List.length_cons] at h2; omega

/-- Unfolding `replaceAll` at a position where the (non-empty) pattern
matches: emit the replacement and continue after the pattern. -/
lemma replaceAll_step {pat : List Char} (rep : List Char) {s : List Char}
    (hne : pat ≠ []) (hp : pat.isPrefixOf s = true) :
    replaceAll s pat rep = rep ++ replaceAll (s.drop pat.length) pat rep := by
  cases s with
  | nil =>
      cases pat with
      | nil => exact absurd rfl hne
      | cons a t => simp [List.isPrefixOf] at hp
  | cons c rest =>
      have hplen : 1 ≤ pat.length := by
        cases pat with
        | nil => exact absurd rfl hne
        | cons _ _ => simp
      show replaceAllFuel (c :: rest).length (c :: rest) pat rep = _
      simp only [List.length_cons, replaceAllFuel]
      have hcond : (pat.isPrefixOf (c :: rest) && !pat.isEmpty) = true := by
        rw [Bool.and_eq_true]
        constructor
        · exact hp
        · cases pat with
          | nil => exact absurd rfl hne
          | cons _ _ => rfl
      rw [if_pos hcond]
      congr 1
      apply replaceAllFuel_congr
      · simp only [List.length_drop, List.length_cons]; omega
      · exact Nat.le_refl _

lemma takeWhile_all (p : Char → Bool) :
    ∀ (l : List Char), (∀ c ∈ l, p c = true) → l.takeWhile p = l := by
  intro l
  induction l with
  | nil => intro _; rfl
  | cons c rest ih =>
      intro h
      have hc : p c = true := h c (by simp)
      simp only [List.takeWhile_cons, hc, if_true]
      rw [ih (fun a ha => h a (by simp [ha]))]

lemma takeWhile_append_stop (p : Char → Bool) :
    ∀ (l : List Char) (c : Char) (u : List Char),
      (∀ a ∈ l, p a = true) → p c = false →
      (l ++ c :: u).takeWhile p = l := by
  intro l
  induction l with
  | nil =>
      intro c u _ hc
      simp [List.takeWhile_cons, hc]
  | cons a rest ih =>
      intro c u h hc
      have ha : p a = true := h a (by simp)
      rw [List.cons_append]
      simp only [List.takeWhile_cons, ha, if_true]
      rw [ih c u (fun b hb => h b (by simp [hb])) hc]

/-! ### Normalizer lemmas (claim C3) -/

/-- Any string whose characters start with the canonical
`/pnfs/fnal.gov/usr/uboone` mount is a fixed point of the normalizer. -/
lemma filename_to_namespace_fixed_of_canonical (z : List Char) :
    filename_to_namespace ⟨"/pnfs/fnal.gov/usr/uboone".data ++ z⟩
      = ⟨"/pnfs/fnal.gov/usr/uboone".data ++ z⟩ := by
  have h1 : pyStartsWith ⟨"/pnfs/fnal.gov/usr/uboone".data ++ z⟩
      "root://fndca1.fnal.gov:1094" = false := by
    unfold pyStartsWith
    cases hc : ("root://fndca1.fnal.gov:1094".data.isPrefixOf
        ("/pnfs/fnal.gov/usr/uboone".data ++ z)) with
    | false => rfl
    | true =>
        rcases isPrefixOf_append_elim _ _ _ hc with hl | hr
        · exact absurd hl (by decide)
        · exact absurd hr (by decide)
  have h2 : pyStartsWith ⟨"/pnfs/fnal.gov/usr/uboone".data ++ z⟩
      "/pnfs/uboone" = false := by
    unfold pyStartsWith
    cases hc : ("/pnfs/uboone".data.isPrefixOf
        ("/pnfs/fnal.gov/usr/uboone".data ++ z)) with
    | false => rfl
    | true =>
        rcases isPrefixOf_append_elim _ _ _ hc with hl | hr
        · exact absurd hl (by decide)
        · exact absurd hr (by decide)
  have h3 : pyStartsWith ⟨"/pnfs/fnal.gov/usr/uboone".data ++ z⟩
      "enstore:/pnfs/uboone" = false := by
    unfold pyStartsWith
    cases hc : ("enstore:/pnfs/uboone".data.isPrefixOf
        ("/pnfs/fnal.gov/usr/uboone".data ++ z)) with
    | false => rfl
    | true =>
        rcases isPrefixOf_append_elim _ _ _ hc with hl | hr
        · exact absurd hl (by decide)
        · exact absurd hr (by decide)
  unfold filename_to_namespace
  rw [h1, h2, h3]
  rfl

/-- C3: the claim that `filename_to_namespace` is idempotent for every
input string is false: an xrootd-door reference whose stripped remainder
begins with the legacy `/pnfs/uboone` alias is rewritten again by a second
application.  Concretely, one application maps
`root://fndca1.fnal.gov:1094/pnfs/uboone/foo` to `/pnfs/uboone/foo`, and a
second application maps that to `/pnfs/fnal.gov/usr/uboone/foo`. -/
theorem C3_counterexample :
    filename_to_namespace
        (filename_to_namespace "root://fndca1.fnal.gov:1094/pnfs/uboone/foo")
      ≠ filename_to_namespace "root://fndca1.fnal.gov:1094/pnfs/uboone/foo" := by
  decide

/-- C3 (amended): the normalizer `filename_to_namespace` is idempotent for
every input that does not begin with the xrootd door prefix
`root://fndca1.fnal.gov:1094`; for inputs with that prefix a second
application can rewrite the stripped remainder further. -/
theorem C3_amended (x : String)
    (h : pyStartsWith x "root://fndca1.fnal.gov:1094" = false) :
    filename_to_namespace (filename_to_namespace x) = filename_to_namespace x := by
  by_cases h2 : pyStartsWith x "/pnfs/uboone" = true
  · have hx : filename_to_namespace x
        = pyReplace x "/pnfs/uboone" "/pnfs/fnal.gov/usr/uboone" := by
      unfold filename_to_namespace
      rw [h, h2]
      rfl
    have hp2 : ("/pnfs/uboone".data).isPrefixOf x.data = true := h2
    have hstep := replaceAll_step ("/pnfs/fnal.gov/usr/uboone".data)
      (by decide : "/pnfs/uboone".data ≠ []) hp2
    have hy : pyReplace x "/pnfs/uboone" "/pnfs/fnal.gov/usr/uboone"
        = ⟨"/pnfs/fnal.gov/usr/uboone".data
            ++ replaceAll (x.data.drop ("/pnfs/uboone".data).length)
                 "/pnfs/uboone".data "/pnfs/fnal.gov/usr/uboone".data⟩ := by
      unfold pyReplace
      rw [hstep]
    rw [hx, hy]
    exact filename_to_namespace_fixed_of_canonical _
  · by_cases h3 : pyStartsWith x "enstore:/pnfs/uboone" = true
    · have hx : filename_to_namespace x
          = pyReplace x "enstore:/pnfs/uboone" "/pnfs/fnal.gov/usr/uboone" := by
        unfold filename_to_namespace
        rw [h, eq_false_of_ne_true h2, h3]
        rfl
      have hp3 : ("enstore:/pnfs/uboone".data).isPrefixOf x.data = true := h3
      have hstep := replaceAll_step ("/pnfs/fnal.gov/usr/uboone".data)
        (by decide : "enstore:/pnfs/uboone".data ≠ []) hp3
      have hy : pyReplace x "enstore:/pnfs/uboone" "/pnfs/fnal.gov/usr/uboone"
          = ⟨"/pnfs/fnal.gov/usr/uboone".data
              ++ replaceAll (x.data.drop ("enstore:/pnfs/uboone".data).length)
                   "enstore:/pnfs/uboone".data "/pnfs/fnal.gov/usr/uboone".data⟩ := by
        unfold pyReplace
        rw [hstep]
      rw [hx, hy]
      exact filename_to_namespace_fixed_of_canonical _
    · have hx : filename_to_namespace x = x := by
        unfold filename_to_namespace
        rw [h, eq_false_of_ne_true h2, eq_false_of_ne_true h3]
        rfl
      rw [hx, hx]

/-- C3 witness: the amended idempotence theorem applied to the concrete
legacy mount-alias input `/pnfs/uboone/foo`. -/
theorem C3_witness :
    pyStartsWith "/pnfs/uboone/foo" "root://fndca1.fnal.gov:1094" = false ∧
    filename_to_namespace (filename_to_namespace "/pnfs/uboone/foo")
      = filename_to_namespace "/pnfs/uboone/foo" :=
  ⟨by decide, C3_amended "/pnfs/uboone/foo" (by decide)⟩

/-! ### Enstore location lemmas (claim C8) -/

lemma everyKth_one (l : List α) : everyKth l 1 = l := by
  unfold everyKth
  have hf : l.enum.filter (fun p => p.1 % 1 == 0) = l.enum := by
    apply List.filter_eq_self.mpr
    intro a _
    simp [Nat.mod_one]
  rw [hf]
  exact List.enumFrom_map_snd 0 l

lemma pySliceStep_one (l : List α) : pySliceStep l 1 = some l := by
  unfold pySliceStep
  rw [if_neg (by decide), if_pos (by decide)]
  rw [show ((1 : Int).toNat) = 1 from rfl, everyKth_one]

lemma string_data_append (a b : String) : (a ++ b).data = a.data ++ b.data := by
  cases a
  cases b
  rfl

/-- Matching the enstore pattern against `enstore:` followed by `rest`:
group 1 is the maximal run of non-parenthesis characters of `rest`, when
non-empty. -/
lemma enstore_group1_eq (rest : List Char) :
    enstore_group1 ("enstore:".data ++ rest)
      = (if rest.takeWhile (fun c => c != '(') = [] then none
         else some (rest.takeWhile (fun c => c != '('))) := by
  unfold enstore_group1
  rw [if_pos (isPrefixOf_append_self _ _)]
  have hdrop : ("enstore:".data ++ rest).drop 8 = rest := by
    have h8 : ("enstore:".data).length = 8 := by decide
    rw [← h8, List.drop_left]
  rw [hdrop]

/-- C8: normalization of tape-archive locations discards the optional
parenthesised tape-volume suffix: a location `enstore:P(SUFFIX...)` and the
suffix-free `enstore:P` extract the same directory `P` and hence produce
the same joined path for a given filename.  `P` must be non-empty and free
of `(` (the regex captures a maximal non-empty run of non-parenthesis
characters). -/
theorem C8 (p u fname : String) (hne : p.data ≠ []) (hnp : '(' ∉ p.data) :
    enstore_locations_to_paths [("enstore:" ++ p ++ "(" ++ u, fname)] 1
        = some [os_path_join p fname] ∧
    enstore_locations_to_paths [("enstore:" ++ p, fname)] 1
        = some [os_path_join p fname] := by
  have hall : ∀ a ∈ p.data, (a != '(') = true := by
    intro a ha
    have : a ≠ '(' := fun hEq => hnp (hEq ▸ ha)
    simp [this]
  have hdata1 : ("enstore:" ++ p ++ "(" ++ u).data
      = "enstore:".data ++ (p.data ++ '(' :: u.data) := by
    rw [string_data_append, string_data_append, string_data_append]
    rw [List.append_assoc, List.append_assoc]
    rfl
  have hdata2 : ("enstore:" ++ p).data = "enstore:".data ++ p.data :=
    string_data_append _ _
  have hg1 : enstore_group1 (("enstore:" ++ p ++ "(" ++ u).data) = some p.data := by
    rw [hdata1, enstore_group1_eq]
    rw [takeWhile_append_stop _ p.data '(' u.data hall (by decide)]
    rw [if_neg hne]
  have hg2 : enstore_group1 (("enstore:" ++ p).data) = some p.data := by
    rw [hdata2, enstore_group1_eq]
    rw [takeWhile_all _ p.data hall]
    rw [if_neg hne]
  constructor
  · unfold enstore_locations_to_paths
    rw [pySliceStep_one]
    simp only [Option.map_some', List.foldl_cons, List.foldl_nil, hg1]
    rfl
  · unfold enstore_locations_to_paths
    rw [pySliceStep_one]
    simp only [Option.map_some', List.foldl_cons, List.foldl_nil, hg2]
    rfl

/-- C8 witness: the suffix-discarding theorem applied to the concrete pair
`enstore:/a/b/c(TAPE001)` and `enstore:/a/b/c`. -/
theorem C8_witness :
    ("/a/b/c" : String).data ≠ [] ∧ '(' ∉ ("/a/b/c" : String).data ∧
    enstore_locations_to_paths [("enstore:/a/b/c(TAPE001)", "file.root")] 1
      = some [os_path_join "/a/b/c" "file.root"] ∧
    enstore_locations_to_paths [("enstore:/a/b/c", "file.root")] 1
      = some [os_path_join "/a/b/c" "file.root"] := by
  refine ⟨by decide, by decide, ?_, ?_⟩
  · have h := (C8 "/a/b/c" "TAPE001)" "file.root" (by decide) (by decide)).1
    exact h
  · exact (C8 "/a/b/c" "TAPE001)" "file.root" (by decide) (by decide)).2

/-! ### Progress bar lemmas (claims C5, C6) -/

/-- The shape invariant of every progress bar built by the constructor with
the default announce threshold of 50 for a batch of `N` files. -/
def pbWF (N : Nat) (pb : ProgressBar) : Prop :=
  pb.total = N ∧ pb.totalDiv10 = N / 10 ∧ pb.announce = decide (50 ≤ N)

lemma pbWF_mk0 (N : Nat) : pbWF N (ProgressBar.mk0 N 50) := ⟨rfl, rfl, rfl⟩

/-- Is an announcement the final `100%` one? -/
def isPercent100 (o : Output) : Bool := o == Output.percent 100

/-- An `Update n` call with `n ≤ N` on a well-formed bar never raises,
preserves the invariant, and announces `100%` exactly when announcements
are on and `n = N`. -/
lemma ProgressBar.update_spec {N : Nat} {pb : ProgressBar} (h : pbWF N pb)
    (n : Nat) (hn : n ≤ N) :
    ∃ pb' out, pb.Update n = .ok (pb', out) ∧ pbWF N pb' ∧
      out.countP isPercent100 = (if 50 ≤ N ∧ n = N then 1 else 0) := by
  obtain ⟨ht, hd, ha⟩ := h
  unfold ProgressBar.Update
  by_cases h50 : 50 ≤ N
  · have h10 : 10 < pb.total := by rw [ht]; omega
    have hdiv : ¬ pb.totalDiv10 = 0 := by rw [hd]; omega
    have hann : pb.announce = true := by rw [ha]; simp [h50]
    rw [if_pos h10, if_neg hdiv, if_pos hann]
    by_cases hcond : (((n / pb.totalDiv10 : Nat) : Int) > pb.lastAnnounceDecile
        ∨ n = pb.total)
    · rw [if_pos hcond]
      refine ⟨_, _, rfl, ⟨ht, hd, ha⟩, ?_⟩
      by_cases hnN : n = N
      · have h100 : n * 100 / pb.total = 100 := by
          rw [ht, hnN, Nat.mul_div_cancel_left _ (by omega : 0 < N)]
        rw [h100]
        simp [isPercent100, h50, hnN]
      · have hlt : n * 100 / pb.total < 100 := by
          rw [ht]
          exact Nat.div_lt_of_lt_mul (by omega)
        have hne100 : n * 100 / pb.total ≠ 100 := by omega
        simp [isPercent100, hnN, hne100]
    · rw [if_neg hcond]
      refine ⟨_, _, rfl, ⟨ht, hd, ha⟩, ?_⟩
      have hnN : ¬ n = N := by
        intro hEq
        exact hcond (Or.inr (by rw [ht, hEq]))
      simp [hnN]
  · have hann : ¬ pb.announce = true := by
      rw [ha]
      simp [h50]
    by_cases h10 : 10 < pb.total
    · have hdiv : ¬ pb.totalDiv10 = 0 := by
        rw [ht] at h10
        rw [hd]
        omega
      rw [if_pos h10, if_neg hdiv, if_neg hann]
      exact ⟨pb, [], rfl, ⟨ht, hd, ha⟩, by simp [h50]⟩
    · rw [if_neg h10, if_neg hann]
      exact ⟨pb, [], rfl, ⟨ht, hd, ha⟩, by simp [h50]⟩

/-- C5: the claim is false on the code: with total 37 the bar is below its
announce threshold of 50, so the full update sequence 0..37 produces no
announcements at all, in particular not one per decile crossing and not a
final `100%`. -/
theorem C5_counterexample :
    progressRun 37 50 (List.range 38) = .ok ([] : List Output) := by decide

/-- C5 (amended): for total 37 the reporter is below the announce threshold
of 50 and the update sequence 0..37 is entirely silent; the per-decile
behavior appears only at or above the threshold, e.g. for total 53 the
update sequence 0..53 announces once per decile crossing and exactly once,
at n = 53, shows 100%. -/
theorem C5_amended :
    progressRun 37 50 (List.range 38) = .ok ([] : List Output) ∧
    progressRun 53 50 (List.range 54)
      = .ok [Output.percent 0, Output.percent 9, Output.percent 18,
             Output.percent 28, Output.percent 37, Output.percent 47,
             Output.percent 56, Output.percent 66, Output.percent 75,
             Output.percent 84, Output.percent 94, Output.percent 100] :=
  ⟨by decide, by decide⟩

/-! ### Batch orchestrator lemmas -/

lemma get_file_qos_ok {bk : String → CurlResult} {f : String}
    {j : List (String × String)}
    (h : bk (filename_to_namespace f) = .body (some j)) :
    get_file_qos bk f = .ok (restLocality bk f, restTargetQos bk f) := by
  unfold get_file_qos restLocality restTargetQos restResponse
  rw [h]

lemma is_file_online_pnfs_ok {fs : String → Option String} {f s : String}
    (h : fs f = some s) :
    is_file_online_pnfs fs f = .ok (pnfsCached fs f) := by
  unfold is_file_online_pnfs pnfsCached
  rw [h]

/-- Loop-state invariant of `FilelistCacheCount`: when not verbose the
state carries a well-formed progress bar for a batch of `N` files. -/
def stInv (v : Bool) (N : Nat) (st : CacheState) : Prop :=
  v = false → ∃ pb, st.progbar = some pb ∧ pbWF N pb

lemma applyCached_cached (st : CacheState) (f : String) (c : Bool) :
    (applyCached st f c).cached = st.cached + (if c then 1 else 0) := by
  cases c <;> simp [applyCached]

lemma applyCached_cache_list (st : CacheState) (f : String) (c : Bool) :
    (applyCached st f c).cache_list = st.cache_list ++ (if c then [f] else []) := by
  cases c <;> simp [applyCached]

lemma applyCached_pending (st : CacheState) (f : String) (c : Bool) :
    (applyCached st f c).pending = st.pending := by
  cases c <;> simp [applyCached]

lemma applyCached_n (st : CacheState) (f : String) (c : Bool) :
    (applyCached st f c).n = st.n := by
  cases c <;> simp [applyCached]

lemma applyCached_progbar (st : CacheState) (f : String) (c : Bool) :
    (applyCached st f c).progbar = st.progbar := by
  cases c <;> simp [applyCached]

lemma applyCached_outputs (st : CacheState) (f : String) (c : Bool) :
    (applyCached st f c).outputs = st.outputs := by
  cases c <;> simp [applyCached]

lemma applyPending_cached (st : CacheState) (p : Bool) :
    (applyPending st p).cached = st.cached := by
  cases p <;> simp [applyPending]

lemma applyPending_cache_list (st : CacheState) (p : Bool) :
    (applyPending st p).cache_list = st.cache_list := by
  cases p <;> simp [applyPending]

lemma applyPending_pending (st : CacheState) (p : Bool) :
    (applyPending st p).pending = st.pending + (if p then 1 else 0) := by
  cases p <;> simp [applyPending]

lemma applyPending_n (st : CacheState) (p : Bool) :
    (applyPending st p).n = st.n := by
  cases p <;> simp [applyPending]

lemma applyPending_progbar (st : CacheState) (p : Bool) :
    (applyPending st p).progbar = st.progbar := by
  cases p <;> simp [applyPending]

lemma applyPending_outputs (st : CacheState) (p : Bool) :
    (applyPending st p).outputs = st.outputs := by
  cases p <;> simp [applyPending]

lemma cacheStep_rest_spec {bk : String → CurlResult} {fs : String → Option String}
    {v : Bool} {N : Nat} {st : CacheState} {f : String}
    {j : List (String × String)}
    (hj : bk (filename_to_namespace f) = .body (some j))
    (hinv : stInv v N st) (hn : st.n + 1 ≤ N) :
    ∃ st', cacheStep bk fs v Method.rest st f = .ok st' ∧
      st'.cached = st.cached + (if restCached bk f then 1 else 0) ∧
      st'.cache_list = st.cache_list ++ (if restCached bk f then [f] else []) ∧
      st'.pending = st.pending + (if restPending bk f then 1 else 0) ∧
      st'.n = st.n + 1 ∧
      stInv v N st' ∧
      st'.outputs.countP isPercent100
        = st.outputs.countP isPercent100
          + (if v = false ∧ 50 ≤ N ∧ st.n + 1 = N then 1 else 0) := by
  have hq : get_file_qos bk f = .ok (restLocality bk f, restTargetQos bk f) :=
    get_file_qos_ok hj
  simp only [restCached, restPending]
  unfold cacheStep
  simp only [hq]
  cases v with
  | true =>
      refine ⟨_, rfl, ?_, ?_, ?_, ?_, ?_, ?_⟩
      · simp [applyCached_cached, applyCached_cache_list, applyCached_pending, applyCached_n, applyCached_progbar, applyCached_outputs, applyPending_cached, applyPending_cache_list, applyPending_pending, applyPending_n, applyPending_progbar, applyPending_outputs]
      · simp [applyCached_cached, applyCached_cache_list, applyCached_pending, applyCached_n, applyCached_progbar, applyCached_outputs, applyPending_cached, applyPending_cache_list, applyPending_pending, applyPending_n, applyPending_progbar, applyPending_outputs]
      · simp [applyCached_cached, applyCached_cache_list, applyCached_pending, applyCached_n, applyCached_progbar, applyCached_outputs, applyPending_cached, applyPending_cache_list, applyPending_pending, applyPending_n, applyPending_progbar, applyPending_outputs]
      · simp [applyCached_cached, applyCached_cache_list, applyCached_pending, applyCached_n, applyCached_progbar, applyCached_outputs, applyPending_cached, applyPending_cache_list, applyPending_pending, applyPending_n, applyPending_progbar, applyPending_outputs]
      · intro h; exact Bool.noConfusion h
      · simp [applyCached_cached, applyCached_cache_list, applyCached_pending, applyCached_n, applyCached_progbar, applyCached_outputs, applyPending_cached, applyPending_cache_list, applyPending_pending, applyPending_n, applyPending_progbar, applyPending_outputs]
  | false =>
      obtain ⟨pb, hpb, hwf⟩ := hinv rfl
      simp only [Bool.false_eq_true, if_false, applyCached_cached, applyCached_cache_list, applyCached_pending, applyCached_n, applyCached_progbar, applyCached_outputs, applyPending_cached, applyPending_cache_list, applyPending_pending, applyPending_n, applyPending_progbar, applyPending_outputs, hpb]
      obtain ⟨pb2, out, hupd, hwf2, hcnt⟩ :=
        ProgressBar.update_spec hwf (st.n + 1) hn
      rw [hupd]
      refine ⟨_, rfl, ?_, ?_, ?_, ?_, ?_, ?_⟩
      · simp [applyCached_cached, applyCached_cache_list, applyCached_pending, applyCached_n, applyCached_progbar, applyCached_outputs, applyPending_cached, applyPending_cache_list, applyPending_pending, applyPending_n, applyPending_progbar, applyPending_outputs]
      · simp [applyCached_cached, applyCached_cache_list, applyCached_pending, applyCached_n, applyCached_progbar, applyCached_outputs, applyPending_cached, applyPending_cache_list, applyPending_pending, applyPending_n, applyPending_progbar, applyPending_outputs]
      · simp [applyCached_cached, applyCached_cache_list, applyCached_pending, applyCached_n, applyCached_progbar, applyCached_outputs, applyPending_cached, applyPending_cache_list, applyPending_pending, applyPending_n, applyPending_progbar, applyPending_outputs]
      · simp [applyCached_cached, applyCached_cache_list, applyCached_pending, applyCached_n, applyCached_progbar, applyCached_outputs, applyPending_cached, applyPending_cache_list, applyPending_pending, applyPending_n, applyPending_progbar, applyPending_outputs]
      · intro _
        exact ⟨pb2, by simp, hwf2⟩
      · simp [applyCached_cached, applyCached_cache_list, applyCached_pending, applyCached_n, applyCached_progbar, applyCached_outputs, applyPending_cached, applyPending_cache_list, applyPending_pending, applyPending_n, applyPending_progbar, applyPending_outputs, List.countP_append, hcnt]

lemma cacheStep_pnfs_spec {bk : String → CurlResult} {fs : String → Option String}
    {v : Bool} {N : Nat} {st : CacheState} {f s : String}
    (hs : fs f = some s)
    (hinv : stInv v N st) (hn : st.n + 1 ≤ N) :
    ∃ st', cacheStep bk fs v Method.pnfs st f = .ok st' ∧
      st'.cached = st.cached + (if pnfsCached fs f then 1 else 0) ∧
      st'.cache_list = st.cache_list ++ (if pnfsCached fs f then [f] else []) ∧
      st'.pending = st.pending ∧
      st'.n = st.n + 1 ∧
      stInv v N st' := by
  have hq := is_file_online_pnfs_ok hs
  unfold cacheStep
  simp only [hq]
  cases v with
  | true =>
      refine ⟨_, rfl, ?_, ?_, ?_, ?_, ?_⟩
      · simp [applyCached_cached]
      · simp [applyCached_cache_list]
      · simp [applyCached_pending]
      · simp [applyCached_n]
      · intro h; exact Bool.noConfusion h
  | false =>
      obtain ⟨pb, hpb, hwf⟩ := hinv rfl
      simp only [Bool.false_eq_true, if_false, applyCached_progbar, applyCached_n, hpb]
      obtain ⟨pb2, out, hupd, hwf2, hcnt⟩ :=
        ProgressBar.update_spec hwf (st.n + 1) hn
      rw [hupd]
      refine ⟨_, rfl, ?_, ?_, ?_, ?_, ?_⟩
      · simp [applyCached_cached]
      · simp [applyCached_cache_list]
      · simp [applyCached_pending]
      · simp [applyCached_n]
      · intro _
        exact ⟨pb2, by simp, hwf2⟩

/-- The status loop over a list of files, REST method: when every file in
the list has a JSON-parseable response, the loop completes, counts and
collects exactly the files whose locality contains `ONLINE`, counts as
pending exactly the files whose target QoS contains `disk`, and the
progress bar announces `100%` exactly once (at the last file) when
announcements are on. -/
lemma cacheLoop_rest {bk : String → CurlResult} {fs : String → Option String}
    {v : Bool} {N : Nat} :
    ∀ (files : List String) (st : CacheState),
      (∀ f ∈ files, ∃ j, bk (filename_to_namespace f) = .body (some j)) →
      stInv v N st → st.n + files.length = N →
      ∃ st', files.foldlM (cacheStep bk fs v Method.rest) st = .ok st' ∧
        st'.cached = st.cached + (files.filter (restCached bk)).length ∧
        st'.cache_list = st.cache_list ++ files.filter (restCached bk) ∧
        st'.pending = st.pending + (files.filter (restPending bk)).length ∧
        st'.n = st.n + files.length ∧
        stInv v N st' ∧
        st'.outputs.countP isPercent100
          = st.outputs.countP isPercent100
            + (if v = false ∧ 50 ≤ N ∧ files ≠ [] then 1 else 0) := by
  intro files
  induction files with
  | nil =>
      intro st _ hinv _
      exact ⟨st, rfl, by simp, by simp, by simp, by simp, hinv, by simp⟩
  | cons f rest ih =>
      intro st hq hinv hExact
      obtain ⟨j, hj⟩ := hq f (by simp)
      have hlen : st.n + (rest.length + 1) = N := by
        simpa using hExact
      obtain ⟨st1, hstep, hc1, hl1, hp1, hn1, hinv1, hcnt1⟩ :=
        @cacheStep_rest_spec bk fs v N st f j hj hinv (by omega)
      rw [List.foldlM_cons, hstep,
        (rfl : ((Except.ok st1 : Except PyError CacheState)
          >>= fun s2 => rest.foldlM (cacheStep bk fs v Method.rest) s2)
            = rest.foldlM (cacheStep bk fs v Method.rest) st1)]
      obtain ⟨st2, hfold, hc2, hl2, hp2, hn2, hinv2, hcnt2⟩ :=
        ih st1 (fun g hg => hq g (by simp [hg])) hinv1 (by omega)
      refine ⟨st2, hfold, ?_, ?_, ?_, ?_, hinv2, ?_⟩
      · rw [hc2, hc1, List.filter_cons]
        cases hcf : restCached bk f <;> simp <;> omega
      · rw [hl2, hl1, List.filter_cons]
        cases hcf : restCached bk f <;> simp
      · rw [hp2, hp1, List.filter_cons]
        cases hpf : restPending bk f <;>
          cases hcf : restCached bk f <;> simp [hpf] <;> omega
      · rw [hn2, hn1]
        simp
        omega
      · rw [hcnt2, hcnt1]
        cases rest with
        | nil =>
            have hone : st.n + 1 = N := by
              simp at hlen
              omega
            simp [hone]
        | cons g rest2 =>
            have hlt : ¬ (st.n + 1 = N) := by
              simp at hlen
              omega
            simp [hlt]

/-- The status loop over a list of files, pnfs method: when every
pseudo-file read succeeds, the loop completes and counts and collects
exactly the files whose locality line contains `ONLINE`; the pending count
is never touched. -/
lemma cacheLoop_pnfs {bk : String → CurlResult} {fs : String → Option String}
    {v : Bool} {N : Nat} :
    ∀ (files : List String) (st : CacheState),
      (∀ f ∈ files, ∃ s, fs f = some s) →
      stInv v N st → st.n + files.length = N →
      ∃ st', files.foldlM (cacheStep bk fs v Method.pnfs) st = .ok st' ∧
        st'.cached = st.cached + (files.filter (pnfsCached fs)).length ∧
        st'.cache_list = st.cache_list ++ files.filter (pnfsCached fs) ∧
        st'.pending = st.pending ∧
        st'.n = st.n + files.length ∧
        stInv v N st' := by
  intro files
  induction files with
  | nil =>
      intro st _ hinv _
      exact ⟨st, rfl, by simp, by simp, rfl, by simp, hinv⟩
  | cons f rest ih =>
      intro st hq hinv hExact
      obtain ⟨s, hs⟩ := hq f (by simp)
      have hlen : st.n + (rest.length + 1) = N := by
        simpa using hExact
      obtain ⟨st1, hstep, hc1, hl1, hp1, hn1, hinv1⟩ :=
        @cacheStep_pnfs_spec bk fs v N st f s hs hinv (by omega)
      rw [List.foldlM_cons, hstep,
        (rfl : ((Except.ok st1 : Except PyError CacheState)
          >>= fun s2 => rest.foldlM (cacheStep bk fs v Method.pnfs) s2)
            = rest.foldlM (cacheStep bk fs v Method.pnfs) st1)]
      obtain ⟨st2, hfold, hc2, hl2, hp2, hn2, hinv2⟩ :=
        ih st1 (fun g hg => hq g (by simp [hg])) hinv1 (by omega)
      refine ⟨st2, hfold, ?_, ?_, ?_, ?_, hinv2⟩
      · rw [hc2, hc1, List.filter_cons]
        cases hcf : pnfsCached fs f <;> simp <;> omega
      · rw [hl2, hl1, List.filter_cons]
        cases hcf : pnfsCached fs f <;> simp
      · rw [hp2, hp1]
      · rw [hn2, hn1]
        simp
        omega

lemma progressBar_init_spec (N : Nat) :
    ∃ pb out, ProgressBar.init N 50 = .ok (pb, out) ∧ pbWF N pb ∧
      out.countP isPercent100 = 0 := by
  obtain ⟨pb, out, hupd, hwf, hcnt⟩ :=
    ProgressBar.update_spec (pbWF_mk0 N) 0 (Nat.zero_le N)
  refine ⟨pb, out, hupd, hwf, ?_⟩
  rw [hcnt, if_neg (by omega : ¬ (50 ≤ N ∧ 0 = N))]

lemma except_bind_ok {α β : Type} (a : α) (k : α → Except PyError β) :
    Except.bind (Except.ok a) k = k a := rfl

lemma initProgress_true (L : Nat) : initProgress L true = .ok (none, []) := rfl

lemma initProgress_false {L : Nat} {pb : ProgressBar} {out : List Output}
    (h : ProgressBar.init L 50 = .ok (pb, out)) :
    initProgress L false = .ok (some pb, out) := by
  unfold initProgress
  rw [if_neg (by simp), h]
  rfl

lemma finishProgress_true (st : CacheState) : finishProgress true st = .ok st := rfl

lemma finishProgress_false {st : CacheState} {pb : ProgressBar}
    {r : ProgressBar × List Output}
    (hpb : st.progbar = some pb) (hupd : pb.Update pb.total = .ok r) :
    finishProgress false st
      = .ok { st with progbar := some r.1, outputs := st.outputs ++ r.2 } := by
  unfold finishProgress
  rw [if_neg (by simp)]
  simp only [hpb]
  rw [hupd]
  rfl

lemma finalizeCount_rest (st : CacheState) :
    finalizeCount Method.rest st
      = ({ cached := st.cached, pending := (st.pending : Int), n := st.n
           cache_list := st.cache_list }, st.outputs) := rfl

lemma finalizeCount_pnfs (st : CacheState) :
    finalizeCount Method.pnfs st
      = ({ cached := st.cached, pending := -1, n := st.n
           cache_list := st.cache_list }, st.outputs) := rfl

/-- The full REST status computation: with a JSON-parseable response for
every file, `FilelistCacheCount` returns the tuple that counts and collects
exactly the files whose locality contains `ONLINE`, counts as pending
exactly the files whose target QoS contains `disk`, reports `n` equal to
the input length -- and, for a non-verbose batch of at least 50 files,
announces `100%` exactly twice. -/
lemma FilelistCacheCount_rest_spec (bk : String → CurlResult)
    (fs : String → Option String) (files : List String) (v : Bool)
    (hq : ∀ f ∈ files, ∃ j, bk (filename_to_namespace f) = .body (some j)) :
    ∃ outs, FilelistCacheCount bk fs files v Method.rest
      = .ok ({ cached := (files.filter (restCached bk)).length
               pending := ((files.filter (restPending bk)).length : Int)
               n := files.length
               cache_list := files.filter (restCached bk) }, outs) ∧
      (v = false → 50 ≤ files.length → outs.countP isPercent100 = 2) := by
  unfold FilelistCacheCount
  cases v with
  | true =>
      have hinv0 : stInv true files.length
          { cached := 0, cache_list := [], pending := 0, n := 0
            progbar := none, outputs := [] } :=
        fun h => Bool.noConfusion h
      obtain ⟨st1, hfold, hc, hl, hp, hn, _, _⟩ :=
        @cacheLoop_rest bk fs true files.length files _ hq hinv0 (by simp)
      rw [initProgress_true]
      simp only [except_bind_ok]
      rw [hfold]
      simp only [except_bind_ok]
      rw [finishProgress_true]
      simp only [except_bind_ok]
      rw [finalizeCount_rest]
      refine ⟨st1.outputs, ?_, fun h _ => Bool.noConfusion h⟩
      simp only [hc, hl, hp, hn]
      simp
  | false =>
      obtain ⟨pb, out0, hinit, hwf, hcnt0⟩ := progressBar_init_spec files.length
      have hinv0 : stInv false files.length
          { cached := 0, cache_list := [], pending := 0, n := 0
            progbar := some pb, outputs := out0 } :=
        fun _ => ⟨pb, rfl, hwf⟩
      obtain ⟨st1, hfold, hc, hl, hp, hn, hinv1, hcnt1⟩ :=
        @cacheLoop_rest bk fs false files.length files _ hq hinv0 (by simp)
      obtain ⟨pb2, hpb2, hwf2⟩ := hinv1 rfl
      obtain ⟨pb3, out3, hupd3, hwf3, hcnt3⟩ :=
        ProgressBar.update_spec hwf2 pb2.total (Nat.le_of_eq hwf2.1)
      rw [initProgress_false hinit]
      simp only [except_bind_ok]
      rw [hfold]
      simp only [except_bind_ok]
      rw [finishProgress_false hpb2 hupd3]
      simp only [except_bind_ok]
      rw [finalizeCount_rest]
      refine ⟨st1.outputs ++ out3, ?_, fun _ h50 => ?_⟩
      · simp only [hc, hl, hp, hn]
        simp
      · have hne : files ≠ [] := by
          intro hnil
          rw [hnil] at h50
          simp at h50
        rw [List.countP_append, hcnt1, hcnt3, hwf2.1, hcnt0]
        simp [h50, hne]

/-- The full pnfs status computation: with a readable locality pseudo-file
for every file, `FilelistCacheCount` returns the tuple that counts and
collects exactly the files whose locality line contains `ONLINE` and
reports the sentinel `-1` as the pending count. -/
lemma FilelistCacheCount_pnfs_spec (bk : String → CurlResult)
    (fs : String → Option String) (files : List String) (v : Bool)
    (hq : ∀ f ∈ files, ∃ s, fs f = some s) :
    ∃ outs, FilelistCacheCount bk fs files v Method.pnfs
      = .ok ({ cached := (files.filter (pnfsCached fs)).length
               pending := -1
               n := files.length
               cache_list := files.filter (pnfsCached fs) }, outs) := by
  unfold FilelistCacheCount
  cases v with
  | true =>
      have hinv0 : stInv true files.length
          { cached := 0, cache_list := [], pending := 0, n := 0
            progbar := none, outputs := [] } :=
        fun h => Bool.noConfusion h
      obtain ⟨st1, hfold, hc, hl, hp, hn, _⟩ :=
        @cacheLoop_pnfs bk fs true files.length files _ hq hinv0 (by simp)
      rw [initProgress_true]
      simp only [except_bind_ok]
      rw [hfold]
      simp only [except_bind_ok]
      rw [finishProgress_true]
      simp only [except_bind_ok]
      rw [finalizeCount_pnfs]
      refine ⟨st1.outputs, ?_⟩
      simp only [hc, hl, hp, hn]
      simp
  | false =>
      obtain ⟨pb, out0, hinit, hwf, hcnt0⟩ := progressBar_init_spec files.length
      have hinv0 : stInv false files.length
          { cached := 0, cache_list := [], pending := 0, n := 0
            progbar := some pb, outputs := out0 } :=
        fun _ => ⟨pb, rfl, hwf⟩
      obtain ⟨st1, hfold, hc, hl, hp, hn, hinv1⟩ :=
        @cacheLoop_pnfs bk fs false files.length files _ hq hinv0 (by simp)
      obtain ⟨pb2, hpb2, hwf2⟩ := hinv1 rfl
      obtain ⟨pb3, out3, hupd3, hwf3, hcnt3⟩ :=
        ProgressBar.update_spec hwf2 pb2.total (Nat.le_of_eq hwf2.1)
      rw [initProgress_false hinit]
      simp only [except_bind_ok]
      rw [hfold]
      simp only [except_bind_ok]
      rw [finishProgress_false hpb2 hupd3]
      simp only [except_bind_ok]
      rw [finalizeCount_pnfs]
      refine ⟨st1.outputs ++ out3, ?_⟩
      simp only [hc, hl, hp, hn]
      simp

lemma request_prestage_ok {bk : String → CurlResult} {f : String}
    {j : List (String × String)}
    (h : bk (filename_to_namespace f) = .body (some j)) :
    request_prestage bk f = .ok (prestageSuccess bk f) := by
  unfold request_prestage prestageSuccess restResponse
  rw [h]

lemma prestage_fold (bk : String → CurlResult) :
    ∀ (files : List String) (acc : Nat),
      (∀ f ∈ files, ∃ j, bk (filename_to_namespace f) = .body (some j)) →
      files.foldlM (fun (acc : Nat) (f : String) =>
          (match request_prestage bk f with
          | .error e => .error e
          | .ok success => .ok (if success then acc + 1 else acc) : Except PyError Nat)) acc
        = .ok (acc + (files.filter (prestageSuccess bk)).length) := by
  intro files
  induction files with
  | nil =>
      intro acc _
      simp
      rfl
  | cons f rest ih =>
      intro acc hq
      obtain ⟨j, hj⟩ := hq f (by simp)
      rw [List.foldlM_cons]
      simp only [request_prestage_ok hj]
      show rest.foldlM _ (if prestageSuccess bk f then acc + 1 else acc) = _
      rw [ih _ (fun g hg => hq g (by simp [hg])), List.filter_cons]
      cases hpf : prestageSuccess bk f <;> simp [hpf] <;> omega

/-- The full prestage computation: with a JSON-parseable response for every
file, `FilelistPrestageRequest` returns the number of files whose prestage
request was reported successful together with the total request count. -/
lemma FilelistPrestageRequest_spec (bk : String → CurlResult)
    (files : List String) (v : Bool)
    (hq : ∀ f ∈ files, ∃ j, bk (filename_to_namespace f) = .body (some j)) :
    FilelistPrestageRequest bk files v
      = .ok ((files.filter (prestageSuccess bk)).length, files.length) := by
  unfold FilelistPrestageRequest
  rw [prestage_fold bk files 0 hq]
  simp only [except_bind_ok]
  simp

/-! ### Claim theorems -/

/-- C1: the claim is false on the code: a residency query whose response
body is not JSON raises `json.JSONDecodeError` out of `get_file_qos`
instead of returning an `Unknown` state, and the uncaught exception aborts
`FilelistCacheCount` at the first such file instead of processing the rest
of the batch; likewise a missing pnfs pseudo-file raises `IOError` and
aborts the pnfs batch. -/
theorem C1_counterexample :
    get_file_qos (fun _ => CurlResult.body none) "f" = .error .jsonDecodeError ∧
    FilelistCacheCount (fun _ => CurlResult.body none) (fun _ => none)
        ["a", "b"] true Method.rest = .error .jsonDecodeError ∧
    is_file_online_pnfs (fun _ => none) "f" = .error .ioError ∧
    FilelistCacheCount (fun _ => CurlResult.body none) (fun _ => none)
        ["a", "b"] true Method.pnfs = .error .ioError :=
  ⟨rfl, rfl, rfl, rfl⟩

/-- C1 (amended): only a failure whose response still parses as a JSON
object (for example an HTTP error status with a JSON error body) is
non-fatal: the locality defaults to the empty string (the `Unknown`
state), the file is not classified cached, and the batch completes,
processing every file.  A transport/TLS/connect failure or a non-JSON body
raises out of `get_file_qos` (REST), and a missing pseudo-file raises out
of `is_file_online_pnfs` (filesystem), aborting the batch. -/
theorem C1_amended :
    (∀ (bk : String → CurlResult) (f : String) (j : List (String × String)),
        bk (filename_to_namespace f) = .body (some j) →
        jsonLookup j "fileLocality" = none →
        get_file_qos bk f = .ok ("", (jsonLookup j "targetQos").getD "") ∧
        restCached bk f = false) ∧
    (∀ (bk : String → CurlResult) (fs : String → Option String)
        (files : List String) (v : Bool),
        (∀ f ∈ files, ∃ j, bk (filename_to_namespace f) = .body (some j)) →
        ∃ r outs, FilelistCacheCount bk fs files v Method.rest = .ok (r, outs) ∧
          r.n = files.length) ∧
    (∀ (bk : String → CurlResult) (f : String),
        bk (filename_to_namespace f) = .transportError →
        get_file_qos bk f = .error .pycurlError) ∧
    (∀ (bk : String → CurlResult) (f : String),
        bk (filename_to_namespace f) = .body none →
        get_file_qos bk f = .error .jsonDecodeError) ∧
    (∀ (fs : String → Option String) (f : String),
        fs f = none → is_file_online_pnfs fs f = .error .ioError) := by
  refine ⟨?_, ?_, ?_, ?_, ?_⟩
  · intro bk f j hj hloc
    have hq := get_file_qos_ok hj
    have hlocEq : restLocality bk f = "" := by
      unfold restLocality restResponse
      simp only [hj, hloc]
      rfl
    have htq : restTargetQos bk f = (jsonLookup j "targetQos").getD "" := by
      unfold restTargetQos restResponse
      simp only [hj]
    constructor
    · rw [hq, hlocEq, htq]
    · unfold restCached
      rw [hlocEq]
      decide
  · intro bk fs files v hq
    obtain ⟨outs, hres, _⟩ := FilelistCacheCount_rest_spec bk fs files v hq
    exact ⟨_, outs, hres, rfl⟩
  · intro bk f h
    unfold get_file_qos
    rw [h]
  · intro bk f h
    unfold get_file_qos
    rw [h]
  · intro fs f h
    unfold is_file_online_pnfs
    rw [h]

/-- C1 witness: the amended batch-completion statement applied to a
two-file batch whose backend answers every query with the empty JSON
object. -/
theorem C1_witness :
    ∃ r outs, FilelistCacheCount (fun _ => CurlResult.body (some []))
        (fun _ => none) ["a", "b"] true Method.rest = .ok (r, outs) ∧
      r.n = ["a", "b"].length :=
  C1_amended.2.1 _ _ ["a", "b"] true (fun _ _ => ⟨[], rfl⟩)

/-- C2: the claim is false on the code: a file whose `targetQos` is
`tape` -- a non-empty string not containing `disk` -- is not counted as
pending (the count stays 0), because the loop tests `"disk" in targetQos`,
not non-emptiness. -/
theorem C2_counterexample :
    FilelistCacheCount
        (fun _ => CurlResult.body
          (some [("fileLocality", "NEARLINE"), ("targetQos", "tape")]))
        (fun _ => none) ["f"] true Method.rest
      = .ok ({ cached := 0, pending := 0, n := 1, cache_list := [] }, []) ∧
    restTargetQos
        (fun _ => CurlResult.body
          (some [("fileLocality", "NEARLINE"), ("targetQos", "tape")])) "f"
      = "tape" ∧
    ("tape" : String) ≠ "" := by
  refine ⟨by decide, by decide, by decide⟩

/-- C2 (amended): in status (REST) mode a file is counted as pending if
and only if the string `disk` occurs as a substring of its `targetQos`
field (`restPending`), independently of the cached classification; a
non-empty `targetQos` without `disk` does not count.  (Only the verbose
per-file line flags `pending` on mere non-emptiness.) -/
theorem C2_amended :
    ∀ (bk : String → CurlResult) (fs : String → Option String)
      (files : List String) (v : Bool),
      (∀ f ∈ files, ∃ j, bk (filename_to_namespace f) = .body (some j)) →
      ∃ r outs, FilelistCacheCount bk fs files v Method.rest = .ok (r, outs) ∧
        r.pending = ((files.filter (restPending bk)).length : Int) := by
  intro bk fs files v hq
  obtain ⟨outs, hres, _⟩ := FilelistCacheCount_rest_spec bk fs files v hq
  exact ⟨_, outs, hres, rfl⟩

/-- C2 witness: the amended pending count applied to a one-file batch with
an outstanding `disk` target QoS. -/
theorem C2_witness :
    ∃ r outs, FilelistCacheCount
        (fun _ => CurlResult.body (some [("targetQos", "disk")]))
        (fun _ => none) ["f"] true Method.rest = .ok (r, outs) ∧
      r.pending = ((["f"].filter (restPending
        (fun _ => CurlResult.body (some [("targetQos", "disk")])))).length : Int) :=
  C2_amended _ _ ["f"] true (fun _ _ => ⟨_, rfl⟩)

/-- C4: the claim is false on the code: a transport failure or a non-JSON
response body makes `request_prestage` raise (`pycurl.error` or
`json.JSONDecodeError`) instead of returning success=false. -/
theorem C4_counterexample :
    request_prestage (fun _ => CurlResult.transportError) "f"
      = .error .pycurlError ∧
    request_prestage (fun _ => CurlResult.body none) "f"
      = .error .jsonDecodeError :=
  ⟨rfl, rfl⟩

/-- C4 (amended): `request_prestage` returns success=true iff the response
body parses as a JSON object whose `status` field equals the literal
`success`; a parseable body with `status` equal to `failed`, or without a
`status` field (such as an empty object or a JSON error body from an HTTP
500), yields success=false; but a transport failure or a non-JSON body
raises instead of returning false. -/
theorem C4_amended :
    (∀ (bk : String → CurlResult) (f : String),
        request_prestage bk f = .ok true ↔
          ∃ j, bk (filename_to_namespace f) = .body (some j) ∧
               jsonLookup j "status" = some "success") ∧
    request_prestage (fun _ => CurlResult.body (some [("status", "failed")])) "f"
      = .ok false ∧
    request_prestage (fun _ => CurlResult.body (some [])) "f" = .ok false ∧
    request_prestage (fun _ => CurlResult.body
        (some [("errors", "Internal Server Error")])) "f" = .ok false := by
  refine ⟨?_, rfl, rfl, rfl⟩
  intro bk f
  constructor
  · intro h
    unfold request_prestage at h
    cases hbk : bk (filename_to_namespace f) with
    | transportError =>
        rw [hbk] at h
        simp at h
    | body p =>
        cases p with
        | none =>
            rw [hbk] at h
            simp at h
        | some j =>
            rw [hbk] at h
            simp at h
            exact ⟨j, rfl, h⟩
  · rintro ⟨j, hj, hs⟩
    rw [request_prestage_ok hj]
    have hps : prestageSuccess bk f = true := by
      unfold prestageSuccess restResponse
      simp only [hj]
      simp [hs]
    rw [hps]

/-- C4 witness: the success characterization applied to a backend whose
response body is the JSON object with `status` equal to `success`. -/
theorem C4_witness :
    request_prestage (fun _ => CurlResult.body (some [("status", "success")])) "x"
      = .ok true :=
  (C4_amended.1 _ "x").mpr ⟨[("status", "success")], rfl, rfl⟩

/-- C6: the claim is false on the code: in a non-verbose 50-file REST batch
the final `100%` announcement is printed twice, not once, because the last
loop iteration already calls `Update(total)` and the code then calls
`Update(progbar.total)` once more, and `Update` always announces when
`n == total`. -/
theorem C6_counterexample :
    (FilelistCacheCount (fun _ => CurlResult.body (some [])) (fun _ => none)
        (List.replicate 50 "f") false Method.rest).map
      (fun pr => pr.2.countP isPercent100) = .ok 2 := by
  decide

/-- C6 (amended): an `Update` call announces only when announcements are
on and the decile bucket is new or `n` equals the total; at `n = total` a
well-formed announcing bar always announces; and per non-verbose REST
batch of at least 50 files the final `100%` announcement is emitted
exactly twice (once by the last per-file update and once by the
unconditional trailing update). -/
theorem C6_amended :
    (∀ (pb : ProgressBar) (n : Nat) (pb2 : ProgressBar) (out : List Output),
        pb.Update n = .ok (pb2, out) → out ≠ [] →
        pb.announce = true ∧ 10 < pb.total ∧
          (((n / pb.totalDiv10 : Nat) : Int) > pb.lastAnnounceDecile
            ∨ n = pb.total)) ∧
    (∀ (pb : ProgressBar) (n : Nat), pb.announce = true → 10 < pb.total →
        ¬ pb.totalDiv10 = 0 → n = pb.total →
        pb.Update n
          = .ok ({ pb with
                    lastAnnounceDecile := ((n / pb.totalDiv10 : Nat) : Int) },
                 [Output.percent (n * 100 / pb.total)])) ∧
    (∀ (bk : String → CurlResult) (fs : String → Option String)
        (files : List String),
        50 ≤ files.length →
        (∀ f ∈ files, ∃ j, bk (filename_to_namespace f) = .body (some j)) →
        ∃ r outs, FilelistCacheCount bk fs files false Method.rest
            = .ok (r, outs) ∧
          outs.countP isPercent100 = 2) := by
  refine ⟨?_, ?_, ?_⟩
  · intro pb n pb2 out hupd hne
    simp only [ProgressBar.Update] at hupd
    by_cases h10 : 10 < pb.total
    · rw [if_pos h10] at hupd
      by_cases hdiv : pb.totalDiv10 = 0
      · rw [if_pos hdiv] at hupd
        simp at hupd
      · rw [if_neg hdiv] at hupd
        by_cases hann : pb.announce = true
        · rw [if_pos hann] at hupd
          by_cases hcond : (((n / pb.totalDiv10 : Nat) : Int)
              > pb.lastAnnounceDecile ∨ n = pb.total)
          · exact ⟨hann, h10, hcond⟩
          · rw [if_neg hcond] at hupd
            simp at hupd
            exact absurd hupd.2 hne
        · rw [if_neg hann] at hupd
          simp at hupd
          exact absurd hupd.2 hne
    · rw [if_neg h10] at hupd
      by_cases hann : pb.announce = true
      · rw [if_pos hann] at hupd
        simp at hupd
      · rw [if_neg hann] at hupd
        simp at hupd
        exact absurd hupd.2 hne
  · intro pb n hann h10 hdiv hEq
    simp only [ProgressBar.Update]
    rw [if_pos h10, if_neg hdiv, if_pos hann, if_pos (Or.inr hEq)]
  · intro bk fs files h50 hq
    obtain ⟨outs, hres, hcnt⟩ := FilelistCacheCount_rest_spec bk fs files false hq
    exact ⟨_, outs, hres, hcnt rfl h50⟩

/-- C6 witness: the twice-announced `100%` applied to a concrete
50-file non-verbose batch. -/
theorem C6_witness :
    ∃ r outs, FilelistCacheCount (fun _ => CurlResult.body (some []))
        (fun _ => none) (List.replicate 50 "f") false Method.rest
        = .ok (r, outs) ∧
      outs.countP isPercent100 = 2 :=
  C6_amended.2.2 _ _ _ (by simp) (fun _ _ => ⟨[], rfl⟩)

/-- C7: in status (REST) mode, when every query parses, a file is
classified cached iff its `fileLocality` contains `ONLINE` (covering both
`ONLINE` and `ONLINE_AND_NEARLINE`), the returned total `n` equals the
number of input files (so total = cached + tape-only with the tape-only
count `n - cached`), and the returned cached-locations list is exactly the
subsequence, in input order, of the files classified cached. -/
theorem C7 :
    ∀ (bk : String → CurlResult) (fs : String → Option String)
      (files : List String) (v : Bool),
      (∀ f ∈ files, ∃ j, bk (filename_to_namespace f) = .body (some j)) →
      ∃ r outs, FilelistCacheCount bk fs files v Method.rest = .ok (r, outs) ∧
        r.cache_list = files.filter (restCached bk) ∧
        r.cached = (files.filter (restCached bk)).length ∧
        r.n = files.length ∧
        r.cached ≤ r.n ∧
        r.cached + (r.n - r.cached) = r.n := by
  intro bk fs files v hq
  obtain ⟨outs, hres, _⟩ := FilelistCacheCount_rest_spec bk fs files v hq
  refine ⟨_, outs, hres, rfl, rfl, rfl, ?_, ?_⟩
  · exact List.length_filter_le _ _
  · show (files.filter (restCached bk)).length
      + (files.length - (files.filter (restCached bk)).length) = files.length
    have := List.length_filter_le (restCached bk) files
    omega

/-- C7 witness: the classification theorem applied to a two-file batch
with one `ONLINE_AND_NEARLINE` response. -/
theorem C7_witness :
    ∃ r outs, FilelistCacheCount
        (fun _ => CurlResult.body (some [("fileLocality", "ONLINE_AND_NEARLINE")]))
        (fun _ => none) ["x", "y"] true Method.rest = .ok (r, outs) ∧
      r.cache_list = ["x", "y"].filter (restCached
        (fun _ => CurlResult.body
          (some [("fileLocality", "ONLINE_AND_NEARLINE")]))) ∧
      r.cached = (["x", "y"].filter (restCached
        (fun _ => CurlResult.body
          (some [("fileLocality", "ONLINE_AND_NEARLINE")])))).length ∧
      r.n = ["x", "y"].length ∧
      r.cached ≤ r.n ∧
      r.cached + (r.n - r.cached) = r.n :=
  C7 _ _ ["x", "y"] true (fun _ _ => ⟨_, rfl⟩)

/-- C9: the status-mode exit status (zero iff `miss_count = total -
cache_count` is zero) is zero iff every requested file was classified
cached, and the prestage-mode exit status is zero iff every prestage
request was reported successful (the succeeded count returned by
`FilelistPrestageRequest` equals the total request count). -/
theorem C9 :
    (∀ (bk : String → CurlResult) (fs : String → Option String)
        (files : List String) (v : Bool),
        (∀ f ∈ files, ∃ j, bk (filename_to_namespace f) = .body (some j)) →
        ∃ r outs, FilelistCacheCount bk fs files v Method.rest = .ok (r, outs) ∧
          (status_exit_code r.cached r.n = 0 ↔
            ∀ f ∈ files, restCached bk f = true)) ∧
    (∀ (bk : String → CurlResult) (files : List String) (v : Bool),
        (∀ f ∈ files, ∃ j, bk (filename_to_namespace f) = .body (some j)) →
        ∃ ngood, FilelistPrestageRequest bk files v = .ok (ngood, files.length) ∧
          (prestage_exit_code ngood files.length = 0 ↔
            ∀ f ∈ files, prestageSuccess bk f = true)) := by
  constructor
  · intro bk fs files v hq
    obtain ⟨outs, hres, _⟩ := FilelistCacheCount_rest_spec bk fs files v hq
    refine ⟨_, outs, hres, ?_⟩
    unfold status_exit_code
    have hle := List.length_filter_le (restCached bk) files
    constructor
    · intro h
      refine List.filter_length_eq_length.mp ?_
      by_cases hcond : ((files.length : Int)
          - (((files.filter (restCached bk)).length : Nat) : Int) = 0)
      · omega
      · rw [if_neg hcond] at h
        omega
    · intro h
      have hlen := List.filter_length_eq_length.mpr h
      have hc : ((files.length : Int)
          - (((files.filter (restCached bk)).length : Nat) : Int) = 0) := by omega
      rw [if_pos hc]
  · intro bk files v hq
    rw [FilelistPrestageRequest_spec bk files v hq]
    refine ⟨_, rfl, ?_⟩
    unfold prestage_exit_code
    have hle := List.length_filter_le (prestageSuccess bk) files
    constructor
    · intro h
      refine List.filter_length_eq_length.mp ?_
      by_cases hcond : (files.filter (prestageSuccess bk)).length = files.length
      · exact hcond
      · rw [if_neg hcond] at h
        omega
    · intro h
      have hlen := List.filter_length_eq_length.mpr h
      rw [if_pos hlen]

/-- C9 witness: the exit characterizations applied to concrete one-file
batches (a cached file for status mode, a successful request for prestage
mode). -/
theorem C9_witness :
    (∃ r outs, FilelistCacheCount
        (fun _ => CurlResult.body (some [("fileLocality", "ONLINE")]))
        (fun _ => none) ["x"] true Method.rest = .ok (r, outs) ∧
      (status_exit_code r.cached r.n = 0 ↔
        ∀ f ∈ ["x"], restCached
          (fun _ => CurlResult.body (some [("fileLocality", "ONLINE")])) f
            = true)) ∧
    (∃ ngood, FilelistPrestageRequest
        (fun _ => CurlResult.body (some [("status", "success")])) ["x"] true
          = .ok (ngood, ["x"].length) ∧
      (prestage_exit_code ngood ["x"].length = 0 ↔
        ∀ f ∈ ["x"], prestageSuccess
          (fun _ => CurlResult.body (some [("status", "success")])) f = true)) :=
  ⟨C9.1 _ _ ["x"] true (fun _ _ => ⟨_, rfl⟩),
   C9.2 _ ["x"] true (fun _ _ => ⟨_, rfl⟩)⟩

/-- C10: with the filesystem (`pnfs`) method, `FilelistCacheCount` returns
the sentinel pending count `-1` (not `0`) for every non-empty file list
whose pseudo-file reads succeed: that variant cannot observe pending
prestage state and the code overwrites the count with `-1`. -/
theorem C10 :
    ∀ (bk : String → CurlResult) (fs : String → Option String)
      (files : List String) (v : Bool),
      files ≠ [] →
      (∀ f ∈ files, ∃ s, fs f = some s) →
      ∃ r outs, FilelistCacheCount bk fs files v Method.pnfs = .ok (r, outs) ∧
        r.pending = -1 ∧ r.pending ≠ 0 := by
  intro bk fs files v _ hq
  obtain ⟨outs, hres⟩ := FilelistCacheCount_pnfs_spec bk fs files v hq
  refine ⟨_, outs, hres, rfl, ?_⟩
  show (-1 : Int) ≠ 0
  decide

/-- C10 witness: the sentinel applied to a concrete one-file pnfs batch. -/
theorem C10_witness :
    ∃ r outs, FilelistCacheCount (fun _ => CurlResult.transportError)
        (fun _ => some "ONLINE") ["x"] true Method.pnfs = .ok (r, outs) ∧
      r.pending = -1 ∧ r.pending ≠ 0 :=
  C10 _ _ ["x"] true (by decide) (fun _ _ => ⟨_, rfl⟩)

end OutputCacheList